import Mathlib

/-!
Verification of the hierarchical state machine engine of the `stateful`
repository (`statig/src/state_machine.rs`) and of the argument analysis of
its macro front-end (`macro/src/analyze.rs`).

The engine structs and methods (`UninitializedStateMachine::init`,
`InitializedStatemachine::{handle, init, transition, step}`, the `Default`
impl, `ON_TRANSITION` / `ON_DISPATCH` defaults) are embedded directly from
`state_machine.rs`.  The `State` / `Superstate` trait operations that the
engine calls (`handle` with bubbling, `depth`, `transition_path`, `enter`,
`exit`, `superstate`) live outside the provided sources, so they are
modelled from the specification (§3, §4.1, §4.2, §4.3); every such
definition carries a doc comment starting with `Modelled from the spec:`.

All engine operations are instrumented with a log (`Act`) recording, in
order, the handler dispatches, entry actions, exit actions, the update of
the current-state field, and the post-transition hook call.  The theorems
are about this log and about the resulting engine configuration.
-/

/-- `Modelled from the spec:` §3 `Response<S>`: tagged union over
{Handled, Super, Transition(S)} (`crate::Response`, not under `src/`). -/
inductive Response (S : Type) where
  | handled : Response S
  | super : Response S
  | transition (target : S) : Response S
deriving DecidableEq, Repr

/-- One observable action of the instrumented engine: a handler dispatch,
an entry action, an exit action, the single write of the current-state
field, or the post-transition hook call. -/
inductive Act (St Sup : Type) where
  | dispatchState (st : St)
  | dispatchSup (sp : Sup)
  | enterState (st : St)
  | enterSup (sp : Sup)
  | exitState (st : St)
  | exitSup (sp : Sup)
  | setState (st : St)
  | hook (prev next : St)
deriving DecidableEq, Repr

variable {St Sup Ev σ : Type}

/-- Iterate the superstate link `n` times starting from `o`. Used to state
the finite-depth invariant of §3 ("the superstate-of relation, followed
repeatedly from any state, terminates after a finite number of steps"). -/
def iterSup (f : Sup → Option Sup) : Nat → Option Sup → Option Sup
  | 0, o => o
  | n + 1, o => iterSup f n (o.bind f)

/-- The ancestor chain obtained by following the superstate link, with
explicit fuel (leaf-to-root order).  With enough fuel this is the full
chain of §4.2 ("compute the ancestor chain ... by repeatedly following
each one's superstate-of link until exhausted"). -/
def supChainAux (f : Sup → Option Sup) : Nat → Option Sup → List Sup
  | _, none => []
  | 0, some _ => []
  | n + 1, some sp => sp :: supChainAux f n (f sp)

/-- `c` is the complete ancestor chain starting from `o`: it follows the
superstate links and ends where the link is exhausted. -/
inductive ChainInv (f : Sup → Option Sup) : Option Sup → List Sup → Prop where
  | nil : ChainInv f none []
  | cons {sp : Sup} {c : List Sup} : ChainInv f (f sp) c → ChainInv f (some sp) (sp :: c)

/-- The data a state machine definition provides to the engine, bundling
the associated items of the `StateMachine` trait
(`state_machine.rs` lines 8–34: `INITIAL`, `ON_DISPATCH`, `ON_TRANSITION`)
with the capabilities of its `State` and `Superstate` types
(`Modelled from the spec:` §3/§6: per-variant handler, optional superstate
identity, entry action, exit action; absent optional actions are the
identity on the shared storage).  `bounded` is the §3 invariant that the
superstate chain from any state terminates. -/
structure StateMachine (St Sup Ev σ : Type) where
  initial : St
  stateSuperstate : St → Option Sup
  supSuperstate : Sup → Option Sup
  stateHandler : St → σ → Ev → Response St × σ
  supHandler : Sup → σ → Ev → Response St × σ
  stateEntryAct : St → σ → σ
  stateExitAct : St → σ → σ
  supEntryAct : Sup → σ → σ
  supExitAct : Sup → σ → σ
  onDispatch : σ → Sum St Sup → Ev → σ
  onTransition : σ → St → St → σ
  depthBound : Nat
  bounded : ∀ st : St, iterSup supSuperstate depthBound (stateSuperstate st) = none

/-- The default value of the `ON_TRANSITION` hook
(`state_machine.rs` line 33: `|_, _, _| {}`), a no-op on the shared
storage. -/
def defaultOnTransition (s : σ) (_prev _next : St) : σ := s

/-- The default value of the `ON_DISPATCH` hook
(`state_machine.rs` lines 29–30: `|_, _, _| {}`). -/
def defaultOnDispatch (s : σ) (_node : Sum St Sup) (_ev : Ev) : σ := s

/-- The ancestor chain of a state (leaf-to-root), `Modelled from the
spec:` §4.2, computed with the machine's depth bound as fuel. -/
def chainSt (m : StateMachine St Sup Ev σ) (st : St) : List Sup :=
  supChainAux m.supSuperstate m.depthBound (m.stateSuperstate st)

/-- `Modelled from the spec:` §4.2 depth of a state.  Convention (the spec
leaves the choice to the implementer): a state with no superstate has
depth 1, so that `depth` equals the number of enter levels needed to enter
the full ancestor chain including the state itself. -/
def depth (m : StateMachine St Sup Ev σ) (st : St) : Nat :=
  (chainSt m st).length + 1

/-- Lockstep walk of two equal-depth ancestor chains (leaf-to-root),
returning the number of ancestors at or above the first coincidence
(`Modelled from the spec:` §4.2 "walk both upward in lockstep until the
two ancestors coincide, or both reach no superstate"). -/
def lcaAux [DecidableEq Sup] : List Sup → List Sup → Nat
  | a :: as, b :: bs => if a = b then as.length + 1 else lcaAux as bs
  | _, _ => 0

/-- Number of common ancestors of two states given their chains:
`Modelled from the spec:` §4.2 "first walk the deeper chain upward until
both chains are at equal depth, then walk both upward in lockstep until
the two ancestors coincide". -/
def lcaCount [DecidableEq Sup] (c₁ c₂ : List Sup) : Nat :=
  lcaAux (c₁.drop (c₁.length - c₂.length)) (c₂.drop (c₂.length - c₁.length))

/-- `Modelled from the spec:` §4.2 `transition_path`: the pair
(exit levels, enter levels) for a transition, i.e. each state's depth
minus the number of common ancestors. -/
def transitionPath [DecidableEq Sup] (m : StateMachine St Sup Ev σ)
    (current target : St) : Nat × Nat :=
  let k := lcaCount (chainSt m current) (chainSt m target)
  (depth m current - k, depth m target - k)

/-- `Modelled from the spec:` §4.2 exit sequence on a superstate: run the
exit action, then recurse into the declared superstate, for the given
number of levels (leaf-to-root order).  Returns the new shared storage and
the log of exit actions. -/
def supExit (m : StateMachine St Sup Ev σ) : Nat → Sup → σ → σ × List (Act St Sup)
  | 0, _, s => (s, [])
  | n + 1, sp, s =>
    let s₁ := m.supExitAct sp s
    match m.supSuperstate sp with
    | none => (s₁, [Act.exitSup sp])
    | some p =>
      let t := supExit m n p s₁
      (t.1, Act.exitSup sp :: t.2)

/-- `Modelled from the spec:` §4.2 exit sequence starting at a state:
"execute exit on the current state, then on each of its superstates in
order", for the given number of levels. -/
def stateExit (m : StateMachine St Sup Ev σ) (st : St) : Nat → σ → σ × List (Act St Sup)
  | 0, s => (s, [])
  | n + 1, s =>
    let s₁ := m.stateExitAct st s
    match m.stateSuperstate st with
    | none => (s₁, [Act.exitState st])
    | some p =>
      let t := supExit m n p s₁
      (t.1, Act.exitState st :: t.2)

/-- `Modelled from the spec:` §4.2 enter sequence on a superstate: first
enter the declared superstate recursively, then run the entry action
(root-to-leaf order), for the given number of levels. -/
def supEnter (m : StateMachine St Sup Ev σ) : Nat → Sup → σ → σ × List (Act St Sup)
  | 0, _, s => (s, [])
  | n + 1, sp, s =>
    let t : σ × List (Act St Sup) :=
      match m.supSuperstate sp with
      | none => (s, [])
      | some p => supEnter m n p s
    (m.supEntryAct sp t.1, t.2 ++ [Act.enterSup sp])

/-- `Modelled from the spec:` §4.2 enter sequence ending at a state:
enter the superstates root-to-leaf, "then entry on the target state
itself", for the given number of levels. -/
def stateEnter (m : StateMachine St Sup Ev σ) (st : St) : Nat → σ → σ × List (Act St Sup)
  | 0, s => (s, [])
  | n + 1, s =>
    let t : σ × List (Act St Sup) :=
      match m.stateSuperstate st with
      | none => (s, [])
      | some p => supEnter m n p s
    (m.stateEntryAct st t.1, t.2 ++ [Act.enterState st])

/-- `Modelled from the spec:` §4.1 bubbling along a chain of superstates:
invoke each superstate's handler in order (preceded by the `ON_DISPATCH`
hook); stop at the first *Handled* or *Transition*; return *Super* if the
chain is exhausted (root reached). -/
def handleChain (m : StateMachine St Sup Ev σ) (ev : Ev) :
    List Sup → σ → Response St × σ × List (Act St Sup)
  | [], s => (Response.super, s, [])
  | sp :: rest, s =>
    let rs := m.supHandler sp (m.onDispatch s (Sum.inr sp) ev) ev
    match rs.1 with
    | Response.super =>
      let t := handleChain m ev rest rs.2
      (t.1, t.2.1, Act.dispatchSup sp :: t.2.2)
    | Response.handled => (Response.handled, rs.2, [Act.dispatchSup sp])
    | Response.transition tgt => (Response.transition tgt, rs.2, [Act.dispatchSup sp])

/-- `Modelled from the spec:` §4.1 `State::handle`: invoke the current
state's handler (preceded by the `ON_DISPATCH` hook); on *Super*, bubble
through the state's ancestor chain. -/
def stateHandle (m : StateMachine St Sup Ev σ) (st : St) (s : σ) (ev : Ev) :
    Response St × σ × List (Act St Sup) :=
  let rs := m.stateHandler st (m.onDispatch s (Sum.inl st) ev) ev
  match rs.1 with
  | Response.super =>
    let t := handleChain m ev (chainSt m st) rs.2
    (t.1, t.2.1, Act.dispatchState st :: t.2.2)
  | Response.handled => (Response.handled, rs.2, [Act.dispatchState st])
  | Response.transition tgt => (Response.transition tgt, rs.2, [Act.dispatchState st])

/-- `InitializedStatemachine` (`state_machine.rs` lines 104–110): shared
storage plus the current state. -/
structure InitializedStatemachine (St σ : Type) where
  sharedStorage : σ
  state : St
deriving DecidableEq, Repr

/-- `UninitializedStateMachine` (`state_machine.rs` lines 57–63). -/
structure UninitializedStateMachine (St σ : Type) where
  sharedStorage : σ
  state : St
deriving DecidableEq, Repr

namespace InitializedStatemachine

/-- `InitializedStatemachine::transition` (`state_machine.rs` lines
149–163): compute the transition path, perform the exit sequence, swap the
current-state field with the target (`core::mem::swap`, line 157), perform
the enter sequence on the new current state, then call `ON_TRANSITION`
with the previous and the new state. -/
def transition [DecidableEq Sup] (m : StateMachine St Sup Ev σ)
    (e : InitializedStatemachine St σ) (target : St) :
    InitializedStatemachine St σ × List (Act St Sup) :=
  let p := transitionPath m e.state target
  let ex := stateExit m e.state p.1 e.sharedStorage
  -- after the swap the field holds `target` and the local holds the old state
  let en := stateEnter m target p.2 ex.1
  let s₃ := m.onTransition en.1 e.state target
  (⟨s₃, target⟩,
    ex.2 ++ [Act.setState target] ++ en.2 ++ [Act.hook e.state target])

/-- `InitializedStatemachine::handle` (`state_machine.rs` lines 132–140):
dispatch the event from the current state; on *Handled* or *Super* do
nothing further; on *Transition(target)* run the transition. -/
def handle [DecidableEq Sup] (m : StateMachine St Sup Ev σ)
    (e : InitializedStatemachine St σ) (ev : Ev) :
    InitializedStatemachine St σ × List (Act St Sup) :=
  let t := stateHandle m e.state e.sharedStorage ev
  match t.1 with
  | Response.handled => (⟨t.2.1, e.state⟩, t.2.2)
  | Response.super => (⟨t.2.1, e.state⟩, t.2.2)
  | Response.transition tgt =>
    let tr := transition m ⟨t.2.1, e.state⟩ tgt
    (tr.1, t.2.2 ++ tr.2)

/-- `InitializedStatemachine::init` (`state_machine.rs` lines 143–146):
execute all entry actions towards the initial state, the number of levels
being the state's depth. -/
def initInternal (m : StateMachine St Sup Ev σ)
    (e : InitializedStatemachine St σ) :
    InitializedStatemachine St σ × List (Act St Sup) :=
  let en := stateEnter m e.state (depth m e.state) e.sharedStorage
  (⟨en.1, e.state⟩, en.2)

/-- `InitializedStatemachine::step` (`state_machine.rs` lines 166–174),
available when the event type is `()`: `self.handle(&())`. -/
def step [DecidableEq Sup] (m : StateMachine St Sup Unit σ)
    (e : InitializedStatemachine St σ) :
    InitializedStatemachine St σ × List (Act St Sup) :=
  handle m e ()

end InitializedStatemachine

/-- `UninitializedStateMachine::init` (`state_machine.rs` lines 93–100):
move the storage and state into an `InitializedStatemachine` and run its
private `init`. -/
def UninitializedStateMachine.init
    (m : StateMachine St Sup Ev σ) (u : UninitializedStateMachine St σ) :
    InitializedStatemachine St σ × List (Act St Sup) :=
  InitializedStatemachine.initInternal m ⟨u.sharedStorage, u.state⟩

/-- `StateMachineSharedStorage::state_machine` (`state_machine.rs` lines
39–47): wrap the shared storage with the `INITIAL` state into an
uninitialized state machine. -/
def stateMachineOf (m : StateMachine St Sup Ev σ) (storage : σ) :
    UninitializedStateMachine St σ :=
  ⟨storage, m.initial⟩

/-- `impl Default for InitializedStatemachine` (`state_machine.rs` lines
176–186): construct an initialized state machine directly from the default
shared storage and the `INITIAL` state, without running any entry
actions. -/
def defaultInitialized (m : StateMachine St Sup Ev σ) (defaultStorage : σ) :
    InitializedStatemachine St σ :=
  ⟨defaultStorage, m.initial⟩

/-- Is this log entry an entry or exit action? -/
def Act.isEnterExit : Act St Sup → Bool
  | Act.enterState _ => true
  | Act.enterSup _ => true
  | Act.exitState _ => true
  | Act.exitSup _ => true
  | _ => false

/-- Is this log entry an entry action? -/
def Act.isEnter : Act St Sup → Bool
  | Act.enterState _ => true
  | Act.enterSup _ => true
  | _ => false

/-- Is this log entry an exit action? -/
def Act.isExit : Act St Sup → Bool
  | Act.exitState _ => true
  | Act.exitSup _ => true
  | _ => false

/-- Is this log entry a handler dispatch? -/
def Act.isDispatch : Act St Sup → Bool
  | Act.dispatchState _ => true
  | Act.dispatchSup _ => true
  | _ => false

/-- Is this log entry the write of the current-state field? -/
def Act.isSetState : Act St Sup → Bool
  | Act.setState _ => true
  | _ => false

/-- Is this log entry a post-transition hook call? -/
def Act.isHook : Act St Sup → Bool
  | Act.hook _ _ => true
  | _ => false

/-- Does no entry or exit action occur after any write of the
current-state field in this log?  (The order claimed by the specification
for the state update during a transition.) -/
def noEnterExitAfterSet : List (Act St Sup) → Bool
  | [] => true
  | a :: rest =>
    if a.isSetState then
      rest.all (fun x => !x.isEnterExit) && noEnterExitAfterSet rest
    else
      noEnterExitAfterSet rest

/-- The superstate link of a state-or-superstate node (the `superstate`
capability of §3, uniform over the two representations). -/
def nodeSuper (m : StateMachine St Sup Ev σ) : Sum St Sup → Option Sup
  | Sum.inl st => m.stateSuperstate st
  | Sum.inr sp => m.supSuperstate sp

/-- Consecutive nodes of the list are linked by the superstate relation:
each node's declared superstate is exactly the next node. -/
def Bubbles (m : StateMachine St Sup Ev σ) : List (Sum St Sup) → Prop
  | [] => True
  | [_] => True
  | a :: b :: r => (∃ sp, nodeSuper m a = some sp ∧ b = Sum.inr sp) ∧ Bubbles m (b :: r)

/-- `Response` values that do not request a transition. -/
def notTransition : Response St → Bool
  | Response.transition _ => false
  | _ => true

/-- Repeated `handle` calls on an initialized state machine, accumulating
the log. -/
def handleAll [DecidableEq Sup] (m : StateMachine St Sup Ev σ) :
    List Ev → InitializedStatemachine St σ →
      InitializedStatemachine St σ × List (Act St Sup)
  | [], e => (e, [])
  | ev :: rest, e =>
    let t := InitializedStatemachine.handle m e ev
    let t₂ := handleAll m rest t.1
    (t₂.1, t.2 ++ t₂.2)

/-- Every dispatch in this run of `handle` calls resolves to *Handled* or
bubbles off the root (*Super*), i.e. no call requests a transition. -/
def consumesAll [DecidableEq Sup] (m : StateMachine St Sup Ev σ) :
    List Ev → InitializedStatemachine St σ → Bool
  | [], _ => true
  | ev :: rest, e =>
    notTransition (stateHandle m e.state e.sharedStorage ev).1 &&
    consumesAll m rest (InitializedStatemachine.handle m e ev).1

/-- Concrete machine: two root states `false` and `true` with no
superstates; all actions are no-ops.  Used to evaluate the engine on
a concrete transition. -/
def CM3 : StateMachine Bool Unit Unit Unit where
  initial := false
  stateSuperstate := fun _ => none
  supSuperstate := fun _ => none
  stateHandler := fun _ s _ => (Response.handled, s)
  supHandler := fun _ s _ => (Response.handled, s)
  stateEntryAct := fun _ s => s
  stateExitAct := fun _ s => s
  supEntryAct := fun _ s => s
  supExitAct := fun _ s => s
  onDispatch := fun s _ _ => s
  onTransition := fun s _ _ => s
  depthBound := 0
  bounded := fun _ => rfl

/-- Concrete machine: states `false`/`true` under a single superstate;
every handler returns *Super*, so every event bubbles off the root. -/
def CM2 : StateMachine Bool Unit Unit Unit where
  initial := false
  stateSuperstate := fun _ => some ()
  supSuperstate := fun _ => none
  stateHandler := fun _ s _ => (Response.super, s)
  supHandler := fun _ s _ => (Response.super, s)
  stateEntryAct := fun _ s => s
  stateExitAct := fun _ s => s
  supEntryAct := fun _ s => s
  supExitAct := fun _ s => s
  onDispatch := fun s _ _ => s
  onTransition := fun s _ _ => s
  depthBound := 1
  bounded := fun _ => rfl

/-- Concrete machine: a single state under two nested superstates
(`true` below `false`); the shared storage counts how many entry actions
have run. -/
def CM4 : StateMachine Unit Bool Unit Nat where
  initial := ()
  stateSuperstate := fun _ => some true
  supSuperstate := fun b => if b then some false else none
  stateHandler := fun _ s _ => (Response.handled, s)
  supHandler := fun _ s _ => (Response.handled, s)
  stateEntryAct := fun _ n => n + 1
  stateExitAct := fun _ n => n
  supEntryAct := fun _ n => n + 1
  supExitAct := fun _ n => n
  onDispatch := fun s _ _ => s
  onTransition := fun s _ _ => s
  depthBound := 2
  bounded := fun _ => rfl

/-- Concrete machine: two root states whose handlers consume every event
(*Handled*) while mutating the shared storage. -/
def CM7 : StateMachine Bool Unit Unit Nat where
  initial := false
  stateSuperstate := fun _ => none
  supSuperstate := fun _ => none
  stateHandler := fun _ s _ => (Response.handled, s + 1)
  supHandler := fun _ s _ => (Response.handled, s)
  stateEntryAct := fun _ s => s
  stateExitAct := fun _ s => s
  supEntryAct := fun _ s => s
  supExitAct := fun _ s => s
  onDispatch := fun s _ _ => s
  onTransition := fun s _ _ => s
  depthBound := 0
  bounded := fun _ => rfl

/-! ## Model of the macro front-end argument analysis (`analyze.rs`) -/

/-- The `syn::Pat` cases distinguished by `analyze.rs`: identifier
patterns, tuple / tuple-struct / struct patterns (with their nested
sub-patterns), range patterns, and a representative of every other
pattern kind (matched by the catch-all arms). -/
inductive Pat where
  | ident (nm : String)
  | tuple (elems : List Pat)
  | tupleStruct (elems : List Pat)
  | structPat (fields : List Pat)
  | range
  | wild

/-- A `syn::FnArg`: either a receiver (e.g. `&mut self`) or a typed
argument carrying a pattern. -/
inductive FnArg where
  | receiver
  | typed (p : Pat)

mutual

/-- `get_idents_from_pat` (`analyze.rs` lines 362–387): destructure a
pattern and collect the idents it binds; `abort` (modelled as
`Except.error`) on unsupported pattern kinds. -/
def getIdentsFromPat : Pat → Except String (List String)
  | Pat.ident nm => Except.ok [nm]
  | Pat.tuple es => getIdentsFromPats es
  | Pat.tupleStruct es => getIdentsFromPats es
  | Pat.structPat es => getIdentsFromPats es
  | Pat.range => Except.ok []
  | Pat.wild => Except.error "pattern type is not supported"

/-- Collect the idents bound by a list of sub-patterns (the flattened
`map`/`flatten` in `get_idents_from_pat`). -/
def getIdentsFromPats : List Pat → Except String (List String)
  | [] => Except.ok []
  | p :: ps => do
    let a ← getIdentsFromPat p
    let b ← getIdentsFromPats ps
    Except.ok (a ++ b)

end

/-- The classification of a state/superstate handler's arguments built by
the loop in `analyze_state` (lines 218–234) and `analyze_superstate`
(lines 281–297): receiver, state-local inputs, external inputs. -/
structure ArgClassification where
  objectInput : Option FnArg
  stateInputs : List FnArg
  externalInputs : List FnArg

/-- One iteration of the argument-classification loop shared verbatim by
`analyze_state` (`analyze.rs` lines 218–234) and `analyze_superstate`
(lines 281–297): a receiver becomes the object input; a typed argument
with an identifier pattern is an external input when the identifier is
among the state machine's input idents and a state input otherwise;
tuple, tuple-struct and struct patterns abort, as does any other
pattern. -/
def analyzeInput (inputIdents : List String) (acc : ArgClassification) :
    FnArg → Except String ArgClassification
  | FnArg.receiver =>
    Except.ok { acc with objectInput := some FnArg.receiver }
  | FnArg.typed p =>
    match p with
    | Pat.ident nm =>
      if nm ∈ inputIdents then
        Except.ok { acc with
          externalInputs := acc.externalInputs ++ [FnArg.typed (Pat.ident nm)] }
      else
        Except.ok { acc with
          stateInputs := acc.stateInputs ++ [FnArg.typed (Pat.ident nm)] }
    | Pat.tuple _es => Except.error "tuple patterns are not supported"
    | Pat.tupleStruct _es => Except.error "tuple struct patterns are not supported"
    | Pat.structPat _es => Except.error "struct patterns are not supported"
    | Pat.range => Except.error "patterns are not supported"
    | Pat.wild => Except.error "patterns are not supported"

/-- The whole argument-classification loop of `analyze_state` /
`analyze_superstate`, folded over the method's arguments in order. -/
def analyzeInputs (inputIdents : List String) (args : List FnArg) :
    Except String ArgClassification :=
  args.foldlM (analyzeInput inputIdents) ⟨none, [], []⟩

/-- The object input after processing the arguments in order: the last
receiver argument, if any (mirrors `object_input = Some(input.clone())`
overwriting on each receiver). -/
def objectInputOf (args : List FnArg) : Option FnArg :=
  args.foldl
    (fun acc a => match a with
      | FnArg.receiver => some FnArg.receiver
      | _ => acc)
    none

/-- Is this argument a receiver? -/
def FnArg.isReceiver : FnArg → Bool
  | FnArg.receiver => true
  | _ => false

/-- Is this argument a typed argument with an identifier pattern? -/
def FnArg.isIdentTyped : FnArg → Bool
  | FnArg.typed (Pat.ident _) => true
  | _ => false

/-- Is this a tuple, tuple-struct, or struct pattern (the kinds the claim
names as rejected with an abort)? -/
def isCompositePat : Pat → Bool
  | Pat.tuple _ => true
  | Pat.tupleStruct _ => true
  | Pat.structPat _ => true
  | _ => false

/-- Typed argument with an identifier pattern matching one of the declared
input idents (destined for `external_inputs`). -/
def isExternalArg (ids : List String) : FnArg → Bool
  | FnArg.typed (Pat.ident nm) => decide (nm ∈ ids)
  | _ => false

/-- Typed argument with an identifier pattern not matching any declared
input ident (destined for `state_inputs`). -/
def isStateArg (ids : List String) : FnArg → Bool
  | FnArg.typed (Pat.ident nm) => !decide (nm ∈ ids)
  | _ => false

/-! ## Chain lemmas -/

theorem chainInv_of_iter {f : Sup → Option Sup} :
    ∀ (n : Nat) (o : Option Sup), iterSup f n o = none →
      ChainInv f o (supChainAux f n o) := by
  intro n
  induction n with
  | zero =>
    intro o h
    cases o with
    | none => exact ChainInv.nil
    | some sp => simp [iterSup] at h
  | succ n ih =>
    intro o h
    cases o with
    | none => exact ChainInv.nil
    | some sp =>
      have h' : iterSup f n (f sp) = none := by simpa [iterSup] using h
      show ChainInv f (some sp) (sp :: supChainAux f n (f sp))
      exact ChainInv.cons (ih (f sp) h')

theorem chainInv_chainSt (m : StateMachine St Sup Ev σ) (st : St) :
    ChainInv m.supSuperstate (m.stateSuperstate st) (chainSt m st) :=
  chainInv_of_iter m.depthBound (m.stateSuperstate st) (m.bounded st)

theorem chainInv_unique {f : Sup → Option Sup} {o : Option Sup}
    {c₁ c₂ : List Sup} (h₁ : ChainInv f o c₁) (h₂ : ChainInv f o c₂) :
    c₁ = c₂ := by
  induction h₁ generalizing c₂ with
  | nil => cases h₂; rfl
  | cons h ih =>
    cases h₂ with
    | cons h' => exact congrArg _ (ih h')

theorem chainInv_mem_suffix {f : Sup → Option Sup} {o : Option Sup}
    {c : List Sup} (h : ChainInv f o c) :
    ∀ {x : Sup}, x ∈ c → ∃ t, t <:+ c ∧ ChainInv f (some x) t := by
  induction h with
  | nil => intro x hx; cases hx
  | cons h ih =>
    intro x hx
    rcases List.mem_cons.mp hx with rfl | hx
    · exact ⟨_, List.suffix_refl _, ChainInv.cons h⟩
    · obtain ⟨t, ht, hinv⟩ := ih hx
      exact ⟨t, ht.trans (List.suffix_cons _ _), hinv⟩

theorem chainInv_nodup {f : Sup → Option Sup} {o : Option Sup}
    {c : List Sup} (h : ChainInv f o c) : c.Nodup := by
  induction h with
  | nil => exact List.nodup_nil
  | @cons sp c h ih =>
    refine List.nodup_cons.mpr ⟨?_, ih⟩
    intro hmem
    obtain ⟨t, ht, hinv⟩ := chainInv_mem_suffix h hmem
    have heq : t = sp :: c := chainInv_unique hinv (ChainInv.cons h)
    have hlen : t.length ≤ c.length := ht.length_le
    simp [heq] at hlen

theorem chainInv_nil_super {f : Sup → Option Sup} {o : Option Sup}
    (h : ChainInv f o []) : o = none := by
  cases h; rfl

theorem chainInv_getLast {f : Sup → Option Sup} {o : Option Sup}
    {c : List Sup} (h : ChainInv f o c) :
    ∀ x, c.getLast? = some x → f x = none := by
  induction h with
  | nil => intro x hx; simp at hx
  | @cons sp c h ih =>
    intro x hx
    cases c with
    | nil =>
      simp at hx
      subst hx
      exact chainInv_nil_super h
    | cons y ys =>
      rw [List.getLast?_cons_cons] at hx
      exact ih x hx

/-! ## Exit / enter log lemmas -/

theorem supExit_log (m : StateMachine St Sup Ev σ) :
    ∀ (n : Nat) (sp : Sup) (t : List Sup) (s : σ),
      ChainInv m.supSuperstate (some sp) t → n ≤ t.length →
      (supExit m n sp s).2 = (t.take n).map Act.exitSup := by
  intro n
  induction n with
  | zero => intro sp t s _ _; simp [supExit]
  | succ n ih =>
    intro sp t s hinv hn
    cases hinv with
    | @cons _ c h =>
      cases hf : m.supSuperstate sp with
      | none =>
        rw [hf] at h
        cases h
        have hn0 : n = 0 := by simpa using hn
        subst hn0
        simp [supExit, hf]
      | some p =>
        rw [hf] at h
        simp only [supExit, hf]
        have hn' : n ≤ c.length := by
          simp at hn; omega
        rw [ih p c (m.supExitAct sp s) h hn']
        simp

theorem stateExit_log (m : StateMachine St Sup Ev σ) (st : St) (n : Nat) (s : σ)
    (hn : n ≤ (chainSt m st).length) :
    (stateExit m st (n + 1) s).2 =
      Act.exitState st :: ((chainSt m st).take n).map Act.exitSup := by
  have hinv := chainInv_chainSt m st
  cases hf : m.stateSuperstate st with
  | none =>
    rw [hf] at hinv
    have hc : chainSt m st = [] := chainInv_unique hinv ChainInv.nil
    rw [hc] at hn
    have hn0 : n = 0 := by simpa using hn
    subst hn0
    simp [stateExit, hf, hc]
  | some p =>
    rw [hf] at hinv
    simp only [stateExit, hf]
    rw [supExit_log m n p (chainSt m st) (m.stateExitAct st s) hinv hn]

theorem supEnter_log (m : StateMachine St Sup Ev σ) :
    ∀ (n : Nat) (sp : Sup) (t : List Sup) (s : σ),
      ChainInv m.supSuperstate (some sp) t → n ≤ t.length →
      (supEnter m n sp s).2 = ((t.take n).reverse).map Act.enterSup := by
  intro n
  induction n with
  | zero => intro sp t s _ _; simp [supEnter]
  | succ n ih =>
    intro sp t s hinv hn
    cases hinv with
    | @cons _ c h =>
      cases hf : m.supSuperstate sp with
      | none =>
        rw [hf] at h
        cases h
        have hn0 : n = 0 := by simpa using hn
        subst hn0
        simp [supEnter, hf]
      | some p =>
        rw [hf] at h
        simp only [supEnter, hf]
        have hn' : n ≤ c.length := by
          simp at hn; omega
        rw [ih p c s h hn']
        simp

theorem stateEnter_log (m : StateMachine St Sup Ev σ) (st : St) (n : Nat) (s : σ)
    (hn : n ≤ (chainSt m st).length) :
    (stateEnter m st (n + 1) s).2 =
      (((chainSt m st).take n).reverse).map Act.enterSup ++ [Act.enterState st] := by
  have hinv := chainInv_chainSt m st
  cases hf : m.stateSuperstate st with
  | none =>
    rw [hf] at hinv
    have hc : chainSt m st = [] := chainInv_unique hinv ChainInv.nil
    rw [hc] at hn
    have hn0 : n = 0 := by simpa using hn
    subst hn0
    simp [stateEnter, hf, hc]
  | some p =>
    rw [hf] at hinv
    simp only [stateEnter, hf]
    rw [supEnter_log m n p (chainSt m st) s hinv hn]

/-! ## Lowest-common-ancestor lemmas -/

theorem lcaAux_le_left [DecidableEq Sup] (a : List Sup) :
    ∀ b : List Sup, lcaAux a b ≤ a.length := by
  induction a with
  | nil => intro b; cases b <;> simp [lcaAux]
  | cons x xs ih =>
    intro b
    cases b with
    | nil => simp [lcaAux]
    | cons y ys =>
      by_cases hxy : x = y
      · simp [lcaAux, hxy]
      · simp only [lcaAux, if_neg hxy]
        have := ih ys
        simp only [List.length_cons]
        omega

theorem lcaAux_le_right [DecidableEq Sup] (a : List Sup) :
    ∀ b : List Sup, a.length ≤ b.length → lcaAux a b ≤ b.length := by
  induction a with
  | nil => intro b _; cases b <;> simp [lcaAux]
  | cons x xs ih =>
    intro b hb
    cases b with
    | nil => simp [lcaAux]
    | cons y ys =>
      simp only [List.length_cons] at hb
      by_cases hxy : x = y
      · simp only [lcaAux, if_pos hxy, List.length_cons]
        omega
      · simp only [lcaAux, if_neg hxy, List.length_cons]
        have := ih ys (by omega)
        omega

theorem lcaCount_le_left [DecidableEq Sup] (c₁ c₂ : List Sup) :
    lcaCount c₁ c₂ ≤ c₁.length := by
  unfold lcaCount
  have h := lcaAux_le_left (c₁.drop (c₁.length - c₂.length))
    (c₂.drop (c₂.length - c₁.length))
  simp only [List.length_drop] at h
  omega

theorem lcaCount_le_right [DecidableEq Sup] (c₁ c₂ : List Sup) :
    lcaCount c₁ c₂ ≤ c₂.length := by
  unfold lcaCount
  have h := lcaAux_le_right (c₁.drop (c₁.length - c₂.length))
    (c₂.drop (c₂.length - c₁.length))
    (by simp only [List.length_drop]; omega)
  simp only [List.length_drop] at h
  omega

theorem lcaAux_self [DecidableEq Sup] (c : List Sup) : lcaAux c c = c.length := by
  cases c with
  | nil => simp [lcaAux]
  | cons x xs => simp [lcaAux]

theorem lcaCount_self [DecidableEq Sup] (c : List Sup) : lcaCount c c = c.length := by
  simp [lcaCount, lcaAux_self]

/-! ## The transition log -/

/-- The full log of a transition: the exit actions of the current state and
of its ancestors strictly below the common ancestor (leaf upward), the
single write of the current-state field, the entry actions of the target's
ancestors strictly below the common ancestor (root-to-leaf) ending with
the target, and finally the post-transition hook. -/
theorem transition_log_eq [DecidableEq Sup] (m : StateMachine St Sup Ev σ)
    (e : InitializedStatemachine St σ) (target : St) :
    (InitializedStatemachine.transition m e target).2 =
      (Act.exitState e.state ::
        ((chainSt m e.state).take
          ((chainSt m e.state).length -
            lcaCount (chainSt m e.state) (chainSt m target))).map Act.exitSup)
      ++ [Act.setState target]
      ++ ((((chainSt m target).take
          ((chainSt m target).length -
            lcaCount (chainSt m e.state) (chainSt m target))).reverse).map Act.enterSup
          ++ [Act.enterState target])
      ++ [Act.hook e.state target] := by
  have hk1 := lcaCount_le_left (chainSt m e.state) (chainSt m target)
  have hk2 := lcaCount_le_right (chainSt m e.state) (chainSt m target)
  simp only [InitializedStatemachine.transition, transitionPath, depth]
  rw [show (chainSt m e.state).length + 1 -
        lcaCount (chainSt m e.state) (chainSt m target)
      = ((chainSt m e.state).length -
        lcaCount (chainSt m e.state) (chainSt m target)) + 1 from by omega]
  rw [show (chainSt m target).length + 1 -
        lcaCount (chainSt m e.state) (chainSt m target)
      = ((chainSt m target).length -
        lcaCount (chainSt m e.state) (chainSt m target)) + 1 from by omega]
  rw [stateExit_log m e.state _ _ (by omega),
    stateEnter_log m target _ _ (by omega)]

theorem transition_state_eq [DecidableEq Sup] (m : StateMachine St Sup Ev σ)
    (e : InitializedStatemachine St σ) (target : St) :
    (InitializedStatemachine.transition m e target).1.state = target := rfl

/-! ## Dispatch / bubbling lemmas -/

theorem handleChain_log (m : StateMachine St Sup Ev σ) (ev : Ev) :
    ∀ (c : List Sup) (s : σ),
      ∃ n, n ≤ c.length ∧
        (handleChain m ev c s).2.2 = (c.take n).map Act.dispatchSup ∧
        ((handleChain m ev c s).1 = Response.super → n = c.length) := by
  intro c
  induction c with
  | nil => intro s; exact ⟨0, by simp [handleChain]⟩
  | cons sp rest ih =>
    intro s
    cases hr : (m.supHandler sp (m.onDispatch s (Sum.inr sp) ev) ev).1 with
    | super =>
      obtain ⟨n, hn, hlog, hsup⟩ :=
        ih (m.supHandler sp (m.onDispatch s (Sum.inr sp) ev) ev).2
      refine ⟨n + 1, by simp; omega, ?_, ?_⟩
      · simp only [handleChain, hr]
        simp [hlog]
      · intro hres
        simp only [handleChain, hr] at hres
        have hlen := hsup hres
        simp [hlen]
    | handled =>
      refine ⟨1, by simp, ?_, ?_⟩
      · simp [handleChain, hr]
      · intro hres
        simp [handleChain, hr] at hres
    | transition tgt =>
      refine ⟨1, by simp, ?_, ?_⟩
      · simp [handleChain, hr]
      · intro hres
        simp [handleChain, hr] at hres

theorem stateHandle_log (m : StateMachine St Sup Ev σ) (st : St) (s : σ) (ev : Ev) :
    ∃ n, n ≤ (chainSt m st).length ∧
      (stateHandle m st s ev).2.2 =
        Act.dispatchState st :: ((chainSt m st).take n).map Act.dispatchSup ∧
      ((stateHandle m st s ev).1 = Response.super → n = (chainSt m st).length) := by
  cases hr : (m.stateHandler st (m.onDispatch s (Sum.inl st) ev) ev).1 with
  | super =>
    obtain ⟨n, hn, hlog, hsup⟩ := handleChain_log m ev (chainSt m st)
      (m.stateHandler st (m.onDispatch s (Sum.inl st) ev) ev).2
    refine ⟨n, hn, ?_, ?_⟩
    · simp only [stateHandle, hr]
      simp [hlog]
    · intro hres
      simp only [stateHandle, hr] at hres
      exact hsup hres
  | handled =>
    refine ⟨0, by simp, ?_, ?_⟩
    · simp [stateHandle, hr]
    · intro hres
      simp [stateHandle, hr] at hres
  | transition tgt =>
    refine ⟨0, by simp, ?_, ?_⟩
    · simp [stateHandle, hr]
    · intro hres
      simp [stateHandle, hr] at hres

theorem bubbles_of_chainInv (m : StateMachine St Sup Ev σ) :
    ∀ {o : Option Sup} {c : List Sup}, ChainInv m.supSuperstate o c →
      ∀ (a : Sum St Sup), nodeSuper m a = o → ∀ n : Nat,
        Bubbles m (a :: (c.take n).map Sum.inr) := by
  intro o c h
  induction h with
  | nil => intro a _ n; simp [Bubbles]
  | @cons sp c hinner ih =>
    intro a ha n
    cases n with
    | zero => simp [Bubbles]
    | succ n =>
      rw [List.take_succ_cons, List.map_cons]
      exact ⟨⟨sp, ha, rfl⟩, ih (Sum.inr sp) rfl n⟩

theorem handle_of_notTransition [DecidableEq Sup] (m : StateMachine St Sup Ev σ)
    (e : InitializedStatemachine St σ) (ev : Ev)
    (h : notTransition (stateHandle m e.state e.sharedStorage ev).1 = true) :
    (InitializedStatemachine.handle m e ev).1.state = e.state ∧
    (InitializedStatemachine.handle m e ev).2 =
      (stateHandle m e.state e.sharedStorage ev).2.2 := by
  cases hr : (stateHandle m e.state e.sharedStorage ev).1 with
  | super => exact ⟨by simp [InitializedStatemachine.handle, hr],
      by simp [InitializedStatemachine.handle, hr]⟩
  | handled => exact ⟨by simp [InitializedStatemachine.handle, hr],
      by simp [InitializedStatemachine.handle, hr]⟩
  | transition tgt => simp [notTransition, hr] at h

/-! ## Argument-classification lemmas -/

theorem analyzeInputs_foldl_ok (ids : List String) :
    ∀ (args : List FnArg) (acc : ArgClassification),
      (∀ a ∈ args, a.isReceiver = true ∨ a.isIdentTyped = true) →
      args.foldlM (analyzeInput ids) acc = Except.ok
        ⟨args.foldl
            (fun o a => match a with
              | FnArg.receiver => some FnArg.receiver
              | _ => o)
            acc.objectInput,
          acc.stateInputs ++ args.filter (isStateArg ids),
          acc.externalInputs ++ args.filter (isExternalArg ids)⟩ := by
  intro args
  induction args with
  | nil =>
    intro acc _
    show Except.ok acc = _
    simp
  | cons a args ih =>
    intro acc hgood
    have htail : ∀ b ∈ args, b.isReceiver = true ∨ b.isIdentTyped = true :=
      fun b hb => hgood b (List.mem_cons_of_mem _ hb)
    cases a with
    | receiver =>
      have h₁ : analyzeInput ids acc FnArg.receiver =
          Except.ok { acc with objectInput := some FnArg.receiver } := rfl
      rw [List.foldlM_cons, h₁]
      show args.foldlM (analyzeInput ids)
        { acc with objectInput := some FnArg.receiver } = _
      rw [ih _ htail]
      rfl
    | typed p =>
      have ha := hgood (FnArg.typed p) (List.mem_cons_self _ _)
      cases p with
      | ident nm =>
        by_cases hmem : nm ∈ ids
        · have h₁ : analyzeInput ids acc (FnArg.typed (Pat.ident nm)) =
              Except.ok { acc with externalInputs :=
                acc.externalInputs ++ [FnArg.typed (Pat.ident nm)] } := by
            simp [analyzeInput, hmem]
          rw [List.foldlM_cons, h₁]
          show args.foldlM (analyzeInput ids)
            { acc with externalInputs :=
              acc.externalInputs ++ [FnArg.typed (Pat.ident nm)] } = _
          rw [ih _ htail]
          simp [List.filter_cons, isStateArg, isExternalArg, hmem]
        · have h₁ : analyzeInput ids acc (FnArg.typed (Pat.ident nm)) =
              Except.ok { acc with stateInputs :=
                acc.stateInputs ++ [FnArg.typed (Pat.ident nm)] } := by
            simp [analyzeInput, hmem]
          rw [List.foldlM_cons, h₁]
          show args.foldlM (analyzeInput ids)
            { acc with stateInputs :=
              acc.stateInputs ++ [FnArg.typed (Pat.ident nm)] } = _
          rw [ih _ htail]
          simp [List.filter_cons, isStateArg, isExternalArg, hmem]
      | tuple es => simp [FnArg.isReceiver, FnArg.isIdentTyped] at ha
      | tupleStruct es => simp [FnArg.isReceiver, FnArg.isIdentTyped] at ha
      | structPat es => simp [FnArg.isReceiver, FnArg.isIdentTyped] at ha
      | range => simp [FnArg.isReceiver, FnArg.isIdentTyped] at ha
      | wild => simp [FnArg.isReceiver, FnArg.isIdentTyped] at ha

theorem analyzeInputs_foldl_error (ids : List String) :
    ∀ (args : List FnArg) (acc : ArgClassification),
      (∃ p, FnArg.typed p ∈ args ∧ isCompositePat p = true) →
      ∃ msg, args.foldlM (analyzeInput ids) acc = Except.error msg := by
  intro args
  induction args with
  | nil =>
    intro acc h
    obtain ⟨p, hp, _⟩ := h
    simp at hp
  | cons a args ih =>
    intro acc h
    obtain ⟨p, hp, hcomp⟩ := h
    cases hres : analyzeInput ids acc a with
    | error msg =>
      refine ⟨msg, ?_⟩
      rw [List.foldlM_cons, hres]
      rfl
    | ok acc' =>
      rcases List.mem_cons.mp hp with heq | hp'
      · rw [← heq] at hres
        cases p with
        | ident nm => simp [isCompositePat] at hcomp
        | tuple es => simp [analyzeInput] at hres
        | tupleStruct es => simp [analyzeInput] at hres
        | structPat es => simp [analyzeInput] at hres
        | range => simp [isCompositePat] at hcomp
        | wild => simp [isCompositePat] at hcomp
      · obtain ⟨msg, hmsg⟩ := ih acc' ⟨p, hp', hcomp⟩
        refine ⟨msg, ?_⟩
        rw [List.foldlM_cons, hres]
        exact hmsg

/-! ## Filter helper lemmas -/

theorem filter_isEnterExit_exits (st : St) (l : List Sup) :
    ((Act.exitState st :: l.map Act.exitSup).filter Act.isEnterExit) =
      Act.exitState st :: l.map Act.exitSup := by
  refine List.filter_eq_self.mpr ?_
  intro a ha
  simp only [List.mem_cons, List.mem_map] at ha
  rcases ha with rfl | ⟨x, _, rfl⟩ <;> rfl

theorem filter_isEnterExit_enters (st : St) (l : List Sup) :
    (((l.map Act.enterSup) ++ [Act.enterState st]).filter Act.isEnterExit) =
      l.map Act.enterSup ++ [Act.enterState st] := by
  refine List.filter_eq_self.mpr ?_
  intro a ha
  simp only [List.mem_append, List.mem_map, List.mem_singleton] at ha
  rcases ha with ⟨x, _, rfl⟩ | rfl <;> rfl

theorem filter_isEnterExit_dispatch (st : St) (l : List Sup) :
    ((Act.dispatchState st :: l.map Act.dispatchSup).filter Act.isEnterExit) =
      [] := by
  refine List.filter_eq_nil_iff.mpr ?_
  intro a ha
  simp only [List.mem_cons, List.mem_map] at ha
  rcases ha with rfl | ⟨x, _, rfl⟩ <;> simp [Act.isEnterExit]

theorem filter_isHook_exits (st : St) (l : List Sup) :
    ((Act.exitState st :: l.map Act.exitSup).filter Act.isHook) = [] := by
  refine List.filter_eq_nil_iff.mpr ?_
  intro a ha
  simp only [List.mem_cons, List.mem_map] at ha
  rcases ha with rfl | ⟨x, _, rfl⟩ <;> simp [Act.isHook]

theorem filter_isHook_enters (st : St) (l : List Sup) :
    (((l.map Act.enterSup) ++ [Act.enterState st]).filter Act.isHook) = [] := by
  refine List.filter_eq_nil_iff.mpr ?_
  intro a ha
  simp only [List.mem_append, List.mem_map, List.mem_singleton] at ha
  rcases ha with ⟨x, _, rfl⟩ | rfl <;> simp [Act.isHook]

theorem filter_isDispatch_enters (st : St) (l : List Sup) :
    (((l.map Act.enterSup) ++ [Act.enterState st]).filter Act.isDispatch) = [] := by
  refine List.filter_eq_nil_iff.mpr ?_
  intro a ha
  simp only [List.mem_append, List.mem_map, List.mem_singleton] at ha
  rcases ha with ⟨x, _, rfl⟩ | rfl <;> simp [Act.isDispatch]

/-! ## Claim theorems -/

/-- C1: for every transition, the entry/exit actions executed are exactly
the exit actions of the states strictly below the common ancestor on the
current state's chain (leaf upward, starting with the current state),
followed by exactly the entry actions of the states strictly below the
common ancestor on the target's chain in root-to-leaf order ending with
the target itself; the log contains no other entry or exit action, so no
state outside these two chains has its entry or exit action invoked. -/
theorem statig_transition_minimality [DecidableEq Sup]
    (m : StateMachine St Sup Ev σ) (e : InitializedStatemachine St σ)
    (target : St) :
    ((InitializedStatemachine.transition m e target).2.filter Act.isEnterExit) =
      (Act.exitState e.state ::
        ((chainSt m e.state).take
          ((chainSt m e.state).length -
            lcaCount (chainSt m e.state) (chainSt m target))).map Act.exitSup)
      ++ ((((chainSt m target).take
          ((chainSt m target).length -
            lcaCount (chainSt m e.state) (chainSt m target))).reverse).map Act.enterSup
          ++ [Act.enterState target]) := by
  rw [transition_log_eq, List.filter_append, List.filter_append,
    List.filter_append, filter_isEnterExit_exits, filter_isEnterExit_enters]
  simp [Act.isEnterExit]

/-- C6: a transition whose target equals the current state is a full
re-entry: the transition path degenerates to one exit level and one enter
level, and the log is exactly the state's exit action followed by the
state-field update, the state's entry action, and the hook — not a
no-op. -/
theorem statig_self_transition_full_reentry [DecidableEq Sup]
    (m : StateMachine St Sup Ev σ) (e : InitializedStatemachine St σ) :
    transitionPath m e.state e.state = (1, 1) ∧
    (InitializedStatemachine.transition m e e.state).2 =
      [Act.exitState e.state, Act.setState e.state, Act.enterState e.state,
        Act.hook e.state e.state] := by
  constructor
  · simp [transitionPath, lcaCount_self, depth]
  · rw [transition_log_eq]
    simp [lcaCount_self]

/-- C3 as stated is false: in `transition` the current-state field is
swapped to the target after the exit sequence but *before* the enter
sequence (`core::mem::swap` at line 157 precedes `enter` at line 160), so
on the concrete machine `CM3` an entry action occurs after the state
write in the log. -/
theorem statig_state_update_order_counterexample :
    noEnterExitAfterSet
      ((InitializedStatemachine.transition CM3 ⟨(), false⟩ true).2) = false := by
  decide

/-- C3 (amended): during every transition the current-state field is
written exactly once, after the whole exit sequence and before the whole
enter sequence; handlers and entry/exit actions receive only the shared
storage, so no observer sees a half-updated state, and the transition
commits the target as the new current state. -/
theorem statig_state_update_between_exit_and_enter [DecidableEq Sup]
    (m : StateMachine St Sup Ev σ) (e : InitializedStatemachine St σ)
    (target : St) :
    ∃ ex en : List (Act St Sup),
      (InitializedStatemachine.transition m e target).2 =
        ex ++ [Act.setState target] ++ en ++ [Act.hook e.state target] ∧
      (∀ a ∈ ex, Act.isExit a = true) ∧
      (∀ a ∈ en, Act.isEnter a = true) ∧
      (InitializedStatemachine.transition m e target).1.state = target := by
  refine ⟨Act.exitState e.state ::
      ((chainSt m e.state).take
        ((chainSt m e.state).length -
          lcaCount (chainSt m e.state) (chainSt m target))).map Act.exitSup,
    (((chainSt m target).take
        ((chainSt m target).length -
          lcaCount (chainSt m e.state) (chainSt m target))).reverse).map Act.enterSup
      ++ [Act.enterState target], ?_, ?_, ?_, rfl⟩
  · rw [transition_log_eq]
  · intro a ha
    simp only [List.mem_cons, List.mem_map] at ha
    rcases ha with rfl | ⟨x, _, rfl⟩ <;> simp [Act.isExit]
  · intro a ha
    simp only [List.mem_append, List.mem_map, List.mem_singleton] at ha
    rcases ha with ⟨x, _, rfl⟩ | rfl <;> simp [Act.isEnter]

/-- C8: the post-transition hook is the last entry of every transition's
log — it runs exactly once, after the exit sequence, the state-field
update and the enter sequence — and it receives the previous and the new
current state in that order; the committed state is the target no matter
what the hook does, and the default `ON_TRANSITION` is a no-op on the
shared storage. -/
theorem statig_post_transition_hook [DecidableEq Sup]
    (m : StateMachine St Sup Ev σ) (e : InitializedStatemachine St σ)
    (target : St) :
    (InitializedStatemachine.transition m e target).2.getLast? =
      some (Act.hook e.state target) ∧
    (InitializedStatemachine.transition m e target).2.filter Act.isHook =
      [Act.hook e.state target] ∧
    (InitializedStatemachine.transition m e target).1.state = target ∧
    (∀ (s : σ) (a b : St), defaultOnTransition s a b = s) := by
  refine ⟨?_, ?_, rfl, fun s a b => rfl⟩
  · rw [transition_log_eq, List.getLast?_concat]
  · rw [transition_log_eq, List.filter_append, List.filter_append,
      List.filter_append, filter_isHook_exits, filter_isHook_enters]
    simp [Act.isHook]

/-- C5: `init()` executes exactly the entry actions of the full ancestor
chain of the initial state, root-to-leaf, ending with the state itself;
the chain has no duplicates (so each ancestor is entered exactly once),
the resulting current state is the initial state, and no handler is
dispatched (no event is processed). -/
theorem statig_init_enters_full_chain (m : StateMachine St Sup Ev σ)
    (u : UninitializedStateMachine St σ) :
    (UninitializedStateMachine.init m u).2 =
      ((chainSt m u.state).reverse).map Act.enterSup ++ [Act.enterState u.state] ∧
    (chainSt m u.state).Nodup ∧
    (UninitializedStateMachine.init m u).1.state = u.state ∧
    (UninitializedStateMachine.init m u).2.filter Act.isDispatch = [] := by
  have hlog : (UninitializedStateMachine.init m u).2 =
      ((chainSt m u.state).reverse).map Act.enterSup ++ [Act.enterState u.state] := by
    show (InitializedStatemachine.initInternal m ⟨u.sharedStorage, u.state⟩).2 = _
    simp only [InitializedStatemachine.initInternal, depth]
    rw [stateEnter_log m u.state _ _ (le_refl _)]
    simp
  refine ⟨hlog, chainInv_nodup (chainInv_chainSt m u.state), rfl, ?_⟩
  rw [hlog, filter_isDispatch_enters]

/-- C4: the claim that `init()` is the only way to obtain an initialized
engine is contradicted by the code: `impl Default for
InitializedStatemachine` (lines 176–186) builds an initialized engine
directly from the default storage and `INITIAL` without running any entry
action.  On `CM4`, whose entry actions each increment a counter, the
`Default` path leaves the counter at 0 while the `init()` path runs the
three entry actions of the chain. -/
theorem statig_default_impl_bypasses_init :
    (defaultInitialized CM4 0).sharedStorage = 0 ∧
    (defaultInitialized CM4 0).state = () ∧
    ((UninitializedStateMachine.init CM4 (stateMachineOf CM4 0)).1).sharedStorage = 3 ∧
    (UninitializedStateMachine.init CM4 (stateMachineOf CM4 0)).2 =
      [Act.enterSup false, Act.enterSup true, Act.enterState ()] := by
  decide

/-- C2: dispatching an event from the current state invokes the current
state's handler and then a prefix of its ancestor chain, in order;
consecutive handlers in that sequence are linked exactly by the executing
handler's own declared superstate (`Bubbles`).  If the overall response is
*Super* the whole chain was traversed, the last handler reached has no
declared superstate, and `handle` discards the event: the current state is
unchanged and no entry or exit action is invoked. -/
theorem statig_bubbling_follows_superstate_link [DecidableEq Sup]
    (m : StateMachine St Sup Ev σ) (e : InitializedStatemachine St σ)
    (ev : Ev) :
    ∃ n, n ≤ (chainSt m e.state).length ∧
      (stateHandle m e.state e.sharedStorage ev).2.2 =
        Act.dispatchState e.state ::
          ((chainSt m e.state).take n).map Act.dispatchSup ∧
      Bubbles m (Sum.inl e.state :: ((chainSt m e.state).take n).map Sum.inr) ∧
      ((stateHandle m e.state e.sharedStorage ev).1 = Response.super →
        n = (chainSt m e.state).length ∧
        (∀ x, (chainSt m e.state).getLast? = some x → m.supSuperstate x = none) ∧
        ((chainSt m e.state) = [] → m.stateSuperstate e.state = none) ∧
        (InitializedStatemachine.handle m e ev).1.state = e.state ∧
        (InitializedStatemachine.handle m e ev).2.filter Act.isEnterExit = []) := by
  obtain ⟨n, hn, hlog, hsup⟩ := stateHandle_log m e.state e.sharedStorage ev
  refine ⟨n, hn, hlog, ?_, ?_⟩
  · exact bubbles_of_chainInv m (chainInv_chainSt m e.state) (Sum.inl e.state) rfl n
  · intro hres
    have hnt : notTransition (stateHandle m e.state e.sharedStorage ev).1 = true := by
      rw [hres]; rfl
    obtain ⟨hstate, hhl⟩ := handle_of_notTransition m e ev hnt
    refine ⟨hsup hres, ?_, ?_, hstate, ?_⟩
    · intro x hx
      exact chainInv_getLast (chainInv_chainSt m e.state) x hx
    · intro hc
      have hinv := chainInv_chainSt m e.state
      rw [hc] at hinv
      exact chainInv_nil_super hinv
    · rw [hhl, hlog, filter_isEnterExit_dispatch]

/-- C2 witness: on `CM2`, where every handler returns *Super*, handling an
event leaves the current state unchanged. -/
theorem statig_bubbling_follows_superstate_link_witness :
    (InitializedStatemachine.handle CM2 ⟨(), false⟩ ()).1.state = false := by
  obtain ⟨n, hn, hlog, hb, hsup⟩ :=
    statig_bubbling_follows_superstate_link CM2 ⟨(), false⟩ ()
  have hres : (stateHandle CM2 (InitializedStatemachine.mk () false).state
      (InitializedStatemachine.mk () false).sharedStorage ()).1 = Response.super := by
    decide
  exact (hsup hres).2.2.2.1

/-- C7: over any run of `handle` calls in which every dispatch resolves to
*Handled* or bubbles off the root (never *Transition*), the current state
is unchanged after each call, and no entry or exit action of any state is
ever invoked. -/
theorem statig_handled_leaves_state_unchanged [DecidableEq Sup]
    (m : StateMachine St Sup Ev σ) (evs : List Ev)
    (e : InitializedStatemachine St σ)
    (h : consumesAll m evs e = true) :
    (∀ k, (handleAll m (evs.take k) e).1.state = e.state) ∧
    (handleAll m evs e).2.filter Act.isEnterExit = [] := by
  induction evs generalizing e with
  | nil =>
    constructor
    · intro k
      simp [handleAll]
    · simp [handleAll]
  | cons ev rest ih =>
    rw [consumesAll, Bool.and_eq_true] at h
    obtain ⟨h₁, h₂⟩ := h
    obtain ⟨hstate, hhl⟩ := handle_of_notTransition m e ev h₁
    obtain ⟨n, hn, hsl, _⟩ := stateHandle_log m e.state e.sharedStorage ev
    have hfil : (InitializedStatemachine.handle m e ev).2.filter Act.isEnterExit = [] := by
      rw [hhl, hsl, filter_isEnterExit_dispatch]
    have ihh := ih (InitializedStatemachine.handle m e ev).1 h₂
    constructor
    · intro k
      cases k with
      | zero => simp [handleAll]
      | succ k =>
        rw [List.take_succ_cons]
        show (handleAll m (ev :: rest.take k) e).1.state = e.state
        simp only [handleAll]
        exact (ihh.1 k).trans hstate
    · simp only [handleAll]
      rw [List.filter_append, hfil, ihh.2]
      rfl

/-- C7 witness: on `CM7`, whose handlers consume every event, two `handle`
calls leave the state unchanged and run no entry or exit action. -/
theorem statig_handled_leaves_state_unchanged_witness :
    consumesAll CM7 [(), ()] ⟨0, false⟩ = true ∧
    (handleAll CM7 [(), ()] ⟨0, false⟩).1.state = false ∧
    (handleAll CM7 [(), ()] ⟨0, false⟩).2.filter Act.isEnterExit = [] := by
  have h : consumesAll CM7 [(), ()]
      (InitializedStatemachine.mk 0 false) = true := by decide
  have ht := statig_handled_leaves_state_unchanged CM7 [(), ()] ⟨0, false⟩ h
  refine ⟨h, ?_, ht.2⟩
  have h₂ := ht.1 2
  simpa using h₂

/-- C9: when the event type is `()`, `step()` is by definition
`handle(&())`: it has exactly the same effect on the shared storage, the
current state, and the action log. -/
theorem statig_step_equals_handle_unit [DecidableEq Sup]
    (m : StateMachine St Sup Unit σ) (e : InitializedStatemachine St σ) :
    InitializedStatemachine.step m e = InitializedStatemachine.handle m e () :=
  rfl

/-- C10: the argument-classification loop shared by `analyze_state` and
`analyze_superstate` is deterministic and exhaustive: when every typed
argument has an identifier pattern it succeeds, the object input is the
last receiver (if any), the external inputs are exactly the typed
arguments whose identifier is among the declared input idents (in order),
and the state inputs are exactly the remaining typed arguments (in
order); and whenever some argument carries a tuple, tuple-struct, or
struct pattern, the analysis aborts with an error. -/
theorem statig_analyze_classifies_args (ids : List String) (args : List FnArg) :
    ((∀ a ∈ args, a.isReceiver = true ∨ a.isIdentTyped = true) →
      analyzeInputs ids args = Except.ok
        ⟨objectInputOf args,
          args.filter (isStateArg ids),
          args.filter (isExternalArg ids)⟩) ∧
    ((∃ p, FnArg.typed p ∈ args ∧ isCompositePat p = true) →
      ∃ msg, analyzeInputs ids args = Except.error msg) := by
  constructor
  · intro hgood
    exact analyzeInputs_foldl_ok ids args ⟨none, [], []⟩ hgood
  · intro hbad
    exact analyzeInputs_foldl_error ids args ⟨none, [], []⟩ hbad

/-- C10 witness: on a concrete method signature
`(&mut self, input: &Event, counter: usize)` with declared input ident
`input`, the receiver becomes the object input, `input` the external
input, `counter` the state input; a tuple-pattern argument aborts. -/
theorem statig_analyze_classifies_args_witness :
    analyzeInputs ["input"]
      [FnArg.receiver, FnArg.typed (Pat.ident "input"),
        FnArg.typed (Pat.ident "counter")] =
      Except.ok ⟨some FnArg.receiver,
        [FnArg.typed (Pat.ident "counter")],
        [FnArg.typed (Pat.ident "input")]⟩ ∧
    (∃ msg, analyzeInputs ["input"] [FnArg.typed (Pat.tuple [])] =
      Except.error msg) := by
  constructor
  · have h := (statig_analyze_classifies_args ["input"]
      [FnArg.receiver, FnArg.typed (Pat.ident "input"),
        FnArg.typed (Pat.ident "counter")]).1 ?_
    · rw [h]
      rfl
    · intro a ha
      simp only [List.mem_cons, List.not_mem_nil, or_false] at ha
      rcases ha with rfl | rfl | rfl <;>
        simp [FnArg.isReceiver, FnArg.isIdentTyped]
  · exact (statig_analyze_classifies_args ["input"]
      [FnArg.typed (Pat.tuple [])]).2
      ⟨Pat.tuple [], by simp, rfl⟩

/-- C3 witness: the amended update-order property evaluated on the
concrete machine `CM3` for the transition from `false` to `true`. -/
theorem statig_state_update_between_exit_and_enter_witness :
    ∃ ex en : List (Act Bool Unit),
      (InitializedStatemachine.transition CM3 ⟨(), false⟩ true).2 =
        ex ++ [Act.setState true] ++ en ++ [Act.hook false true] ∧
      (∀ a ∈ ex, Act.isExit a = true) ∧
      (∀ a ∈ en, Act.isEnter a = true) ∧
      (InitializedStatemachine.transition CM3 ⟨(), false⟩ true).1.state = true :=
  statig_state_update_between_exit_and_enter CM3 ⟨(), false⟩ true
